import Mathlib

/-!
Verification of the filter-and-summarize pipeline of the ProteinIndex
dashboard (`proteinindex.py`).

The dashboard keeps one in-memory table `data` (rows: food name, protein
index, cost per gram protein, region), filters it by the sidebar widgets

  filtered_data = data[
      (data['Region'].isin(regions)) &
      (data['Protein Index'].between(min_index, max_index)) &
      (data['Cost per gram protein'] <= max_cost)
  ]

and, when the filtered table is non-empty, renders summary insights
(count, total, means, `idxmin` of the cost column, `idxmax` of the
protein-index column).  We embed the rows as a Lean structure, the table
as a `List`, the boolean mask as a `List.filter`, and pandas
`idxmin`/`idxmax` (first index attaining the extremum) as a left fold
that replaces the current best only on a strict improvement.
-/

/-- One row of the dashboard's table: food name, `Protein Index`,
`Cost per gram protein`, `Region`.  Numeric columns are exact rationals. -/
structure Record where
  food : String
  proteinIndex : ℚ
  cost : ℚ
  region : String
deriving DecidableEq, Repr

/-- The hardcoded sample table `data` of `proteinindex.py` (8 rows). -/
def data : List Record :=
  [ ⟨"Lentils", 78, 0.4, "Asia"⟩,
    ⟨"Chicken", 85, 0.7, "US"⟩,
    ⟨"Soy", 92, 0.5, "Asia"⟩,
    ⟨"Milk", 50, 0.6, "Europe"⟩,
    ⟨"Egg", 88, 0.45, "US"⟩,
    ⟨"Fish", 82, 0.65, "Europe"⟩,
    ⟨"Beef", 75, 0.9, "US"⟩,
    ⟨"Quinoa", 90, 0.55, "Asia"⟩ ]

/-- The spec's representative 5-record sample dataset: the first five rows
of the dashboard's table. -/
def sampleData : List Record := data.take 5

/-- The filter inputs supplied by the sidebar widgets: the multiselect's
region list, the two ends of the `Protein Index Range` slider, and the
`Max Cost per gram protein` slider. -/
structure FilterCriteria where
  regions : List String
  minIndex : ℚ
  maxIndex : ℚ
  maxCost : ℚ
deriving DecidableEq, Repr

/-- The boolean mask applied to one row:
`Region.isin(regions) & ProteinIndex.between(min_index, max_index) &
(Cost <= max_cost)`.  pandas `between` is inclusive at both ends. -/
def rowPred (c : FilterCriteria) (r : Record) : Bool :=
  decide (r.region ∈ c.regions) &&
    (decide (c.minIndex ≤ r.proteinIndex) && decide (r.proteinIndex ≤ c.maxIndex)) &&
    decide (r.cost ≤ c.maxCost)

/-- `filtered_data`: boolean-mask row selection, keeping the table's order. -/
def filteredData (d : List Record) (c : FilterCriteria) : List Record :=
  d.filter (rowPred c)

/-- pandas `Series.unique`, accumulator form: the distinct values in
order of first appearance, skipping those already seen. -/
def uniqueAux (seen : List String) : List String → List String
  | [] => []
  | s :: rest =>
      if s ∈ seen then uniqueAux seen rest else s :: uniqueAux (s :: seen) rest

/-- pandas `Series.unique`: distinct values in order of first appearance. -/
def uniqueList (l : List String) : List String := uniqueAux [] l

/-- The default criteria on first load: the region multiselect defaults to
`data['Region'].unique()` (every region of the loaded table), while the
sliders default to the hardcoded window `value=(70, 100)` and
`value=0.7`. -/
def defaultCriteria : FilterCriteria :=
  ⟨uniqueList (data.map (·.region)), 70, 100, 0.7⟩

/-- pandas `Series.idxmin` over a non-empty list, keyed by `f`: a single
pass that replaces the current best only on a strict improvement, so the
first row attaining the minimum wins. -/
def idxminAux (f : Record → ℚ) (best : Record) : List Record → Record
  | [] => best
  | r :: rs => idxminAux f (if f r < f best then r else best) rs

/-- pandas `Series.idxmax` over a non-empty list, keyed by `f`: the first
row attaining the maximum wins. -/
def idxmaxAux (f : Record → ℚ) (best : Record) : List Record → Record
  | [] => best
  | r :: rs => idxmaxAux f (if f best < f r then r else best) rs

/-- Arithmetic mean of a list of rationals (`Series.mean`). -/
def mean (xs : List ℚ) : ℚ := xs.sum / xs.length

/-- The numbers and rows reported by the `Key Insights` block when the
filtered table is non-empty. -/
structure Stats where
  count : ℕ
  total : ℕ
  meanPrimary : ℚ
  meanCost : ℚ
  bestValue : Record
  bestPrimary : Record
deriving DecidableEq, Repr

/-- Result of the insights block: either the `No insights available`
branch taken when `filtered_data.empty`, or the computed statistics. -/
inductive Summary where
  | noData
  | stats (s : Stats)
deriving DecidableEq, Repr

/-- `summarize`: the `Key Insights` block.  When `filtered_data.empty` it
only emits the no-data message; otherwise it computes
`len(filtered_data)`, `len(data)`, the two column means,
`loc[cost.idxmin()]` and `loc[proteinIndex.idxmax()]`. -/
def summarize (d fd : List Record) : Summary :=
  match fd with
  | [] => .noData
  | r :: rs =>
      .stats
        { count := (r :: rs).length
          total := d.length
          meanPrimary := mean ((r :: rs).map (·.proteinIndex))
          meanCost := mean ((r :: rs).map (·.cost))
          bestValue := idxminAux (·.cost) r rs
          bestPrimary := idxmaxAux (·.proteinIndex) r rs }

/-- Membership in the filtered table unfolds to the conjunction of the
three predicates. -/
lemma mem_filteredData {d : List Record} {c : FilterCriteria} {r : Record} :
    r ∈ filteredData d c ↔
      r ∈ d ∧ r.region ∈ c.regions ∧
        (c.minIndex ≤ r.proteinIndex ∧ r.proteinIndex ≤ c.maxIndex) ∧
        r.cost ≤ c.maxCost := by
  simp [filteredData, List.mem_filter, rowPred, and_assoc]

/-- C1: for every dataset and every valid FilterCriteria (min ≤ max),
`filter(dataset, criteria)` returns exactly the records of the dataset
that satisfy all three active predicates: category membership, inclusive
primary-metric range, inclusive cost ceiling.  Every record of the
dataset absent from the result fails at least one predicate. -/
theorem filter_mem_iff (d : List Record) (c : FilterCriteria)
    (_hvalid : c.minIndex ≤ c.maxIndex) (r : Record) :
    r ∈ filteredData d c ↔
      r ∈ d ∧ r.region ∈ c.regions ∧
        (c.minIndex ≤ r.proteinIndex ∧ r.proteinIndex ≤ c.maxIndex) ∧
        r.cost ≤ c.maxCost :=
  mem_filteredData

/-- Witness for C1 at a concrete input: the sample dataset, the spec's
criteria, and the Lentils row. -/
theorem filter_mem_iff_witness :
    (70 : ℚ) ≤ 100 ∧
      ((⟨"Lentils", 78, 0.4, "Asia"⟩ : Record) ∈
          filteredData sampleData ⟨["Asia", "US"], 70, 100, 0.7⟩ ↔
        (⟨"Lentils", 78, 0.4, "Asia"⟩ : Record) ∈ sampleData ∧
          "Asia" ∈ ["Asia", "US"] ∧
          ((70 : ℚ) ≤ 78 ∧ (78 : ℚ) ≤ 100) ∧ (0.4 : ℚ) ≤ 0.7) :=
  ⟨by norm_num,
    filter_mem_iff sampleData ⟨["Asia", "US"], 70, 100, 0.7⟩ (by norm_num) _⟩

/-- C5: for every dataset, summarizing an empty filtered result yields
the no-data summary, carrying no numeric fields; no mean or extremum is
computed. -/
theorem summarize_empty (d : List Record) : summarize d [] = Summary.noData :=
  rfl

/-- C6: the filtered table is a sublist of the input dataset — surviving
rows keep their relative order. -/
theorem filter_sublist_data (d : List Record) (c : FilterCriteria) :
    List.Sublist (filteredData d c) d :=
  List.filter_sublist d

/-- C7: an empty region selection filters out every row, whatever the
range and cost sliders say. -/
theorem filter_empty_categories (d : List Record) (c : FilterCriteria)
    (h : c.regions = []) : filteredData d c = [] := by
  apply List.filter_eq_nil_iff.mpr
  intro r _
  simp [rowPred, h]

/-- Witness for C7 at a concrete input: the full table, empty region
list, the default sliders. -/
theorem filter_empty_categories_witness :
    (FilterCriteria.mk [] 0 100 1).regions = [] ∧
      filteredData data ⟨[], 0, 100, 1⟩ = [] :=
  ⟨rfl, filter_empty_categories data ⟨[], 0, 100, 1⟩ rfl⟩

/-- The running minimum of `idxminAux` never exceeds the key of the
starting row. -/
lemma idxminAux_le_best (f : Record → ℚ) (best : Record) (l : List Record) :
    f (idxminAux f best l) ≤ f best := by
  induction l generalizing best with
  | nil => simp [idxminAux]
  | cons r rs ih =>
      simp only [idxminAux]
      by_cases h : f r < f best
      · rw [if_pos h]; exact le_trans (ih r) (le_of_lt h)
      · rw [if_neg h]; exact ih best

/-- `idxminAux` returns one of the rows it scanned. -/
lemma idxminAux_mem (f : Record → ℚ) (best : Record) (l : List Record) :
    idxminAux f best l ∈ best :: l := by
  induction l generalizing best with
  | nil => simp [idxminAux]
  | cons r rs ih =>
      simp only [idxminAux]
      rcases List.mem_cons.mp (ih (if f r < f best then r else best)) with h | h
      · rw [h]
        by_cases hc : f r < f best
        · rw [if_pos hc]; exact List.mem_cons_of_mem _ (List.mem_cons_self _ _)
        · rw [if_neg hc]; exact List.mem_cons_self _ _
      · exact List.mem_cons_of_mem _ (List.mem_cons_of_mem _ h)

/-- `idxminAux` attains the minimum key among the scanned rows. -/
lemma idxminAux_min (f : Record → ℚ) (best : Record) (l : List Record) :
    ∀ x ∈ best :: l, f (idxminAux f best l) ≤ f x := by
  induction l generalizing best with
  | nil =>
      intro x hx
      rcases List.mem_cons.mp hx with h | h
      · rw [h]; exact idxminAux_le_best f best []
      · exact absurd h (List.not_mem_nil x)
  | cons r rs ih =>
      intro x hx
      simp only [idxminAux]
      have hb : f (if f r < f best then r else best) ≤ f best := by
        by_cases h : f r < f best
        · rw [if_pos h]; exact le_of_lt h
        · rw [if_neg h]
      have hr : f (if f r < f best then r else best) ≤ f r := by
        by_cases h : f r < f best
        · rw [if_pos h]
        · rw [if_neg h]; exact le_of_not_lt h
      rcases List.mem_cons.mp hx with h | h
      · rw [h]; exact le_trans (idxminAux_le_best f _ rs) hb
      · rcases List.mem_cons.mp h with h' | h'
        · rw [h']; exact le_trans (idxminAux_le_best f _ rs) hr
        · exact ih _ x (List.mem_cons_of_mem _ h')

/-- Helper restating `List.find?_cons_of_pos` with every argument
explicit. -/
lemma find?_cons_pos (p : Record → Bool) (a : Record) (l : List Record)
    (h : p a = true) : List.find? p (a :: l) = some a :=
  List.find?_cons_of_pos l h

/-- Helper restating `List.find?_cons_of_neg` with every argument
explicit. -/
lemma find?_cons_neg (p : Record → Bool) (a : Record) (l : List Record)
    (h : p a = false) : List.find? p (a :: l) = List.find? p l :=
  List.find?_cons_of_neg l (by simp [h])

/-- First-occurrence tie-break of pandas `idxmin`: scanning the rows in
order for a key no larger than the winner's finds the winner first. -/
lemma idxminAux_find (f : Record → ℚ) (best : Record) (l : List Record) :
    (best :: l).find? (fun x => decide (f x ≤ f (idxminAux f best l))) =
      some (idxminAux f best l) := by
  induction l generalizing best with
  | nil => simp [idxminAux]
  | cons r rs ih =>
      simp only [idxminAux]
      by_cases hc : f r < f best
      · simp only [if_pos hc]
        have hlt : f (idxminAux f r rs) < f best :=
          lt_of_le_of_lt (idxminAux_le_best f r rs) hc
        have hbest : (fun x => decide (f x ≤ f (idxminAux f r rs))) best = false := by
          simp [not_le.mpr hlt]
        rw [find?_cons_neg (fun x => decide (f x ≤ f (idxminAux f r rs))) best (r :: rs) hbest]
        exact ih r
      · simp only [if_neg hc]
        have hle : f best ≤ f r := le_of_not_lt hc
        have hrec := ih best
        by_cases hb : f best ≤ f (idxminAux f best rs)
        · have hhead : (fun x => decide (f x ≤ f (idxminAux f best rs))) best = true := by
            simp [hb]
          rw [find?_cons_pos (fun x => decide (f x ≤ f (idxminAux f best rs))) best rs hhead] at hrec
          rw [find?_cons_pos (fun x => decide (f x ≤ f (idxminAux f best rs))) best (r :: rs) hhead]
          exact hrec
        · have hhead : (fun x => decide (f x ≤ f (idxminAux f best rs))) best = false := by
            simp [hb]
          rw [find?_cons_neg (fun x => decide (f x ≤ f (idxminAux f best rs))) best rs hhead] at hrec
          rw [find?_cons_neg (fun x => decide (f x ≤ f (idxminAux f best rs))) best (r :: rs) hhead]
          have hrfalse : (fun x => decide (f x ≤ f (idxminAux f best rs))) r = false := by
            have hlt2 : f (idxminAux f best rs) < f r :=
              lt_of_lt_of_le (lt_of_not_le hb) hle
            simp [not_le.mpr hlt2]
          rw [find?_cons_neg (fun x => decide (f x ≤ f (idxminAux f best rs))) r rs hrfalse]
          exact hrec

/-- `idxmaxAux` keyed by `f` is `idxminAux` keyed by `-f`. -/
lemma idxmaxAux_eq (f : Record → ℚ) (best : Record) (l : List Record) :
    idxmaxAux f best l = idxminAux (fun x => -f x) best l := by
  induction l generalizing best with
  | nil => rfl
  | cons r rs ih =>
      simp only [idxmaxAux, idxminAux]
      rw [ih]
      congr 1
      by_cases h : f best < f r
      · rw [if_pos h, if_pos (neg_lt_neg h)]
      · rw [if_neg h, if_neg (fun hh => h (neg_lt_neg_iff.mp hh))]

/-- `idxmaxAux` returns one of the rows it scanned. -/
lemma idxmaxAux_mem (f : Record → ℚ) (best : Record) (l : List Record) :
    idxmaxAux f best l ∈ best :: l := by
  rw [idxmaxAux_eq]; exact idxminAux_mem _ best l

/-- `idxmaxAux` attains the maximum key among the scanned rows. -/
lemma idxmaxAux_max (f : Record → ℚ) (best : Record) (l : List Record) :
    ∀ x ∈ best :: l, f x ≤ f (idxmaxAux f best l) := by
  intro x hx
  rw [idxmaxAux_eq]
  have h := idxminAux_min (fun y => -f y) best l x hx
  exact neg_le_neg_iff.mp h

/-- First-occurrence tie-break of pandas `idxmax`. -/
lemma idxmaxAux_find (f : Record → ℚ) (best : Record) (l : List Record) :
    (best :: l).find? (fun x => decide (f (idxmaxAux f best l) ≤ f x)) =
      some (idxmaxAux f best l) := by
  rw [idxmaxAux_eq]
  have h := idxminAux_find (fun y => -f y) best l
  have hp : (fun x => decide (f (idxminAux (fun y => -f y) best l) ≤ f x)) =
      (fun x => decide ((fun y => -f y) x ≤ (fun y => -f y) (idxminAux (fun y => -f y) best l))) := by
    funext x
    exact decide_eq_decide.mpr (by simp)
  rw [hp]
  exact h

/-- C8: over every non-empty filtered result, `summarize` picks as
`best_value` the row of minimum cost and as `best_primary` the row of
maximum protein index, each time the first such row in table order (the
`find?` clauses say that the earliest row whose key matches the winner's
extremum is the winner itself). -/
theorem summarize_extrema (d : List Record) (r : Record) (rs : List Record) :
    ∃ s, summarize d (r :: rs) = Summary.stats s ∧
      s.bestValue ∈ r :: rs ∧
      (∀ x ∈ r :: rs, s.bestValue.cost ≤ x.cost) ∧
      (r :: rs).find? (fun x => decide (x.cost ≤ s.bestValue.cost)) = some s.bestValue ∧
      s.bestPrimary ∈ r :: rs ∧
      (∀ x ∈ r :: rs, x.proteinIndex ≤ s.bestPrimary.proteinIndex) ∧
      (r :: rs).find? (fun x => decide (s.bestPrimary.proteinIndex ≤ x.proteinIndex)) =
        some s.bestPrimary := by
  refine ⟨_, rfl, ?_, ?_, ?_, ?_, ?_, ?_⟩
  · exact idxminAux_mem _ r rs
  · exact idxminAux_min _ r rs
  · exact idxminAux_find (fun x => x.cost) r rs
  · exact idxmaxAux_mem _ r rs
  · exact idxmaxAux_max _ r rs
  · exact idxmaxAux_find (fun x => x.proteinIndex) r rs

/-- C9: filtering is deterministic — two invocations on equal datasets
and equal criteria produce identical outputs (the embedding is a pure
function of its arguments: the source's boolean-mask selection builds a
new frame and never mutates `data`). -/
theorem filter_deterministic (d₁ d₂ : List Record) (c₁ c₂ : FilterCriteria)
    (hd : d₁ = d₂) (hc : c₁ = c₂) : filteredData d₁ c₁ = filteredData d₂ c₂ := by
  rw [hd, hc]

/-- Witness for C9 at a concrete input: two runs on the bundled table
with the default criteria. -/
theorem filter_deterministic_witness :
    data = data ∧ defaultCriteria = defaultCriteria ∧
      filteredData data defaultCriteria = filteredData data defaultCriteria :=
  ⟨rfl, rfl, filter_deterministic data data defaultCriteria defaultCriteria rfl rfl⟩

/-- C10: weakening the criteria (more regions, a wider index range, a
higher cost ceiling) only adds rows: the stricter filtered result is a
sublist of the weaker one. -/
theorem filter_monotone (d : List Record) (c₁ c₂ : FilterCriteria)
    (hreg : ∀ s, s ∈ c₁.regions → s ∈ c₂.regions)
    (hmin : c₂.minIndex ≤ c₁.minIndex) (hmax : c₁.maxIndex ≤ c₂.maxIndex)
    (hcost : c₁.maxCost ≤ c₂.maxCost) :
    List.Sublist (filteredData d c₁) (filteredData d c₂) := by
  apply List.monotone_filter_right
  intro r h
  simp only [rowPred, Bool.and_eq_true, decide_eq_true_eq] at h ⊢
  obtain ⟨⟨h1, h2, h3⟩, h4⟩ := h
  exact ⟨⟨hreg _ h1, le_trans hmin h2, le_trans h3 hmax⟩, le_trans h4 hcost⟩

/-- Witness for C10 at a concrete input: tightening all three widgets on
the bundled table. -/
theorem filter_monotone_witness :
    (∀ s, s ∈ ["Asia"] → s ∈ ["Asia", "US"]) ∧
      (70 : ℚ) ≤ 75 ∧ (95 : ℚ) ≤ 100 ∧ (0.5 : ℚ) ≤ 0.7 ∧
      List.Sublist (filteredData data ⟨["Asia"], 75, 95, 0.5⟩)
        (filteredData data ⟨["Asia", "US"], 70, 100, 0.7⟩) :=
  ⟨fun s hs => by simp at hs; simp [hs], by norm_num, by norm_num, by norm_num,
    filter_monotone data ⟨["Asia"], 75, 95, 0.5⟩ ⟨["Asia", "US"], 70, 100, 0.7⟩
      (fun s hs => by simp at hs; simp [hs]) (by norm_num) (by norm_num) (by norm_num)⟩

/-- C2 counterexample: with the inverted range (80, 50) the source's
filter does not fail — `between(80, 50)` is an all-false mask — and the
call returns the empty result, exactly what the claim rules out. -/
theorem inverted_range_returns_empty :
    filteredData data ⟨["Asia", "US", "Europe"], 80, 50, 1⟩ = [] := by
  norm_num [filteredData, data, rowPred, List.filter]

/-- C2 amended: for every dataset, an inverted range (min > max) makes
the row mask unsatisfiable, so the filter silently returns the empty
sequence; no error is raised. -/
theorem filter_inverted_range_empty (d : List Record) (c : FilterCriteria)
    (h : c.maxIndex < c.minIndex) : filteredData d c = [] := by
  apply List.filter_eq_nil_iff.mpr
  intro r _
  simp only [rowPred, Bool.and_eq_true, decide_eq_true_eq]
  rintro ⟨⟨-, h2, h3⟩, -⟩
  exact absurd (le_trans h2 h3) (not_le.mpr h)

/-- Witness for the amended C2 at a concrete input. -/
theorem filter_inverted_range_empty_witness :
    (50 : ℚ) < 80 ∧ filteredData data ⟨["Asia", "US", "Europe"], 80, 50, 1⟩ = [] :=
  ⟨by norm_num,
    filter_inverted_range_empty data ⟨["Asia", "US", "Europe"], 80, 50, 1⟩ (by norm_num)⟩

/-- C3: the region multiselect does default to the table's full region
set, but the numeric widgets default to the hardcoded window (70, 100)
and ceiling 0.7 rather than the dataset's observed range, so the first
load already hides Milk (protein index 50 < 70) and Beef (cost 0.9 >
0.7) from the bundled table. -/
theorem default_criteria_excludes_records :
    (⟨"Milk", 50, 0.6, "Europe"⟩ : Record) ∈ data ∧
      (⟨"Milk", 50, 0.6, "Europe"⟩ : Record) ∉ filteredData data defaultCriteria ∧
      (⟨"Beef", 75, 0.9, "US"⟩ : Record) ∈ data ∧
      (⟨"Beef", 75, 0.9, "US"⟩ : Record) ∉ filteredData data defaultCriteria := by
  have hreg : defaultCriteria = ⟨["Asia", "US", "Europe"], 70, 100, 0.7⟩ := rfl
  rw [hreg]
  norm_num [filteredData, data, rowPred, List.filter]

/-- C4: on the spec's 5-record sample with categories {Asia, US}, range
(70, 100) and ceiling 0.7, the filter keeps Lentils, Chicken, Soy, Egg in
order, and the summary reports count 4 of 5, mean index 85.75, mean cost
0.5125, best value Lentils, best primary Soy. -/
theorem sample_scenario :
    filteredData sampleData ⟨["Asia", "US"], 70, 100, 0.7⟩ =
      [⟨"Lentils", 78, 0.4, "Asia"⟩, ⟨"Chicken", 85, 0.7, "US"⟩,
        ⟨"Soy", 92, 0.5, "Asia"⟩, ⟨"Egg", 88, 0.45, "US"⟩] ∧
      summarize sampleData (filteredData sampleData ⟨["Asia", "US"], 70, 100, 0.7⟩) =
        Summary.stats
          ⟨4, 5, 85.75, 0.5125, ⟨"Lentils", 78, 0.4, "Asia"⟩, ⟨"Soy", 92, 0.5, "Asia"⟩⟩ := by
  norm_num [filteredData, sampleData, data, rowPred, List.filter, List.take,
    summarize, mean, idxminAux, idxmaxAux]
